import Mathlib

/-!
Verification development for the pay-to-play Nostr relay.

The repository contains two relay implementations with real protocol state:

* the persistent relay (WebSocket port 8008): an in-memory event map plus a
  deletion tombstone set, kinds 23 (music) and 5 (deletion), with JSON-file
  persistence (namespace PersistentRelay below);
* the broadcast relay (WebSocket port 8009): an event map plus a subscription
  registry used to fan newly accepted events out to subscribers, with a
  matchFilters function for REQ replay (namespace BroadcastRelay below).

JS Map and Set objects are embedded as insertion-ordered association lists
and duplicate-free lists; the cryptographic checks validateEvent and
verifyEvent of nostr-tools are opaque to this embedding and are carried as
boolean attributes of an event.  JS exceptions are embedded with Except.
-/

/-- JS Map.get on an association list: the first binding of the key. -/
def mapLookup {α : Type} (k : String) : List (String × α) → Option α
  | [] => none
  | p :: rest => if p.1 = k then some p.2 else mapLookup k rest

/-- JS Map.set: update the binding in place when the key is present, append
otherwise (a JS Map keeps insertion order). -/
def mapInsert {α : Type} (k : String) (v : α) (l : List (String × α)) :
    List (String × α) :=
  if l.any (fun p => decide (p.1 = k)) then
    l.map (fun p => if p.1 = k then (k, v) else p)
  else l ++ [(k, v)]

/-- JS Map.delete: remove the binding of the key. -/
def mapErase {α : Type} (k : String) (l : List (String × α)) : List (String × α) :=
  l.filter (fun p => !(decide (p.1 = k)))

/-- JS Set.add: append when absent (a JS Set keeps insertion order). -/
def setInsert {α : Type} [BEq α] (x : α) (l : List α) : List α :=
  if l.contains x then l else l ++ [x]

theorem mapLookup_eq_none_of_not_any {α : Type} (k : String) (l : List (String × α))
    (h : l.any (fun p => decide (p.1 = k)) = false) : mapLookup k l = none := by
  induction l with
  | nil => rfl
  | cons p rest ih =>
      simp only [List.any_cons, Bool.or_eq_false_iff, decide_eq_false_iff_not] at h
      simp [mapLookup, h.1, ih h.2]

theorem mapLookup_append {α : Type} (k : String) (l₁ l₂ : List (String × α)) :
    mapLookup k (l₁ ++ l₂) =
      match mapLookup k l₁ with
      | some v => some v
      | none => mapLookup k l₂ := by
  induction l₁ with
  | nil => simp [mapLookup]
  | cons p rest ih =>
      by_cases h : p.1 = k
      · simp [mapLookup, h]
      · simp [mapLookup, h, ih]

theorem mapLookup_replace_self {α : Type} (k : String) (v : α) (l : List (String × α))
    (h : l.any (fun p => decide (p.1 = k)) = true) :
    mapLookup k (l.map (fun p => if p.1 = k then (k, v) else p)) = some v := by
  induction l with
  | nil => simp at h
  | cons p rest ih =>
      by_cases hp : p.1 = k
      · simp [mapLookup, hp]
      · simp only [List.any_cons, decide_eq_false hp, Bool.false_or] at h
        simpa [mapLookup, hp] using ih h

theorem mapLookup_replace_ne {α : Type} (k k2 : String) (v : α) (l : List (String × α))
    (h : k ≠ k2) :
    mapLookup k (l.map (fun p => if p.1 = k2 then (k2, v) else p)) = mapLookup k l := by
  induction l with
  | nil => rfl
  | cons p rest ih =>
      by_cases hp : p.1 = k2
      · have hpk : ¬p.1 = k := by rw [hp]; exact Ne.symm h
        simp [mapLookup, hp, Ne.symm h, hpk, ih]
      · simp only [List.map_cons, if_neg hp, mapLookup]
        rw [ih]

theorem mapLookup_insert_self {α : Type} (k : String) (v : α) (l : List (String × α)) :
    mapLookup k (mapInsert k v l) = some v := by
  unfold mapInsert
  by_cases h : l.any (fun p => decide (p.1 = k)) = true
  · rw [if_pos h]
    exact mapLookup_replace_self k v l h
  · have h' : l.any (fun p => decide (p.1 = k)) = false := Bool.eq_false_iff.mpr h
    rw [if_neg h]
    rw [mapLookup_append, mapLookup_eq_none_of_not_any k l h']
    simp [mapLookup]

theorem mapLookup_insert_ne {α : Type} (k k2 : String) (v : α) (l : List (String × α))
    (h : k ≠ k2) : mapLookup k (mapInsert k2 v l) = mapLookup k l := by
  unfold mapInsert
  by_cases h2 : l.any (fun p => decide (p.1 = k2)) = true
  · rw [if_pos h2]
    exact mapLookup_replace_ne k k2 v l h
  · rw [if_neg h2]
    rw [mapLookup_append]
    simp only [mapLookup, if_neg (Ne.symm h)]
    cases mapLookup k l <;> simp

theorem mapLookup_erase_self {α : Type} (k : String) (l : List (String × α)) :
    mapLookup k (mapErase k l) = none := by
  induction l with
  | nil => rfl
  | cons p rest ih =>
      by_cases hp : p.1 = k
      · simpa [mapErase, hp] using ih
      · simpa [mapErase, mapLookup, hp] using ih

theorem mapLookup_erase_of_none {α : Type} (k k2 : String) (l : List (String × α))
    (h : mapLookup k l = none) : mapLookup k (mapErase k2 l) = none := by
  induction l with
  | nil => rfl
  | cons p rest ih =>
      by_cases hp : p.1 = k
      · simp [mapLookup, hp] at h
      · simp only [mapLookup, if_neg hp] at h
        by_cases hq : p.1 = k2
        · simpa [mapErase, hq] using ih h
        · simpa [mapErase, mapLookup, hq, hp] using ih h

theorem mem_values_insert {α : Type} (k : String) (v a : α) (l : List (String × α))
    (h : a ∈ (mapInsert k v l).map Prod.snd) : a = v ∨ a ∈ l.map Prod.snd := by
  unfold mapInsert at h
  by_cases hc : l.any (fun p => decide (p.1 = k)) = true
  · rw [if_pos hc, List.map_map] at h
    obtain ⟨p, hp, he⟩ := List.mem_map.mp h
    by_cases hk : p.1 = k
    · left
      simp only [Function.comp, if_pos hk] at he
      exact he.symm
    · right
      exact List.mem_map.mpr ⟨p, hp, by simpa [Function.comp, hk] using he⟩
  · rw [if_neg hc, List.map_append] at h
    rcases List.mem_append.mp h with h1 | h1
    · right; exact h1
    · left; simpa using h1

theorem mem_values_erase {α : Type} (k : String) (a : α) (l : List (String × α))
    (h : a ∈ (mapErase k l).map Prod.snd) : a ∈ l.map Prod.snd := by
  simp only [mapErase, List.mem_map] at h
  obtain ⟨p, hp, he⟩ := h
  exact List.mem_map.mpr ⟨p, List.mem_of_mem_filter hp, he⟩

theorem mem_mapInsert_self {α : Type} (k : String) (v : α) (l : List (String × α)) :
    (k, v) ∈ mapInsert k v l := by
  unfold mapInsert
  by_cases hc : l.any (fun p => decide (p.1 = k)) = true
  · rw [if_pos hc]
    obtain ⟨p, hp, he⟩ := List.any_eq_true.mp hc
    have hk : p.1 = k := of_decide_eq_true he
    exact List.mem_map.mpr ⟨p, hp, by simp [hk]⟩
  · rw [if_neg hc]
    exact List.mem_append.mpr (Or.inr (by simp))

theorem list_contains_iff {α : Type} [BEq α] [LawfulBEq α] (l : List α) (a : α) :
    l.contains a = true ↔ a ∈ l := by simp

theorem mem_setInsert_self {α : Type} [BEq α] [LawfulBEq α] (x : α) (l : List α) :
    x ∈ setInsert x l := by
  unfold setInsert
  by_cases h : l.contains x = true
  · rw [if_pos h]
    exact (list_contains_iff l x).mp h
  · rw [if_neg h]
    exact List.mem_append.mpr (Or.inr (by simp))

theorem contains_setInsert_self {α : Type} [BEq α] [LawfulBEq α] (x : α) (l : List α) :
    (setInsert x l).contains x = true :=
  (list_contains_iff _ x).mpr (mem_setInsert_self x l)

theorem contains_setInsert_of_contains {α : Type} [BEq α] [LawfulBEq α]
    (x y : α) (l : List α) (h : l.contains y = true) :
    (setInsert x l).contains y = true := by
  unfold setInsert
  by_cases hc : l.contains x = true
  · rw [if_pos hc]; exact h
  · rw [if_neg hc]
    exact (list_contains_iff _ y).mpr
      (List.mem_append.mpr (Or.inl ((list_contains_iff l y).mp h)))

theorem mem_setInsert_elim {α : Type} [BEq α] [LawfulBEq α]
    (x y : α) (l : List α) (h : y ∈ setInsert x l) : y = x ∨ y ∈ l := by
  unfold setInsert at h
  by_cases hc : l.contains x = true
  · rw [if_pos hc] at h
    exact Or.inr h
  · rw [if_neg hc] at h
    rcases List.mem_append.mp h with h1 | h1
    · exact Or.inr h1
    · exact Or.inl (List.mem_singleton.mp h1)

theorem mem_setInsert_of_mem {α : Type} [BEq α] [LawfulBEq α]
    (x y : α) (l : List α) (h : y ∈ l) : y ∈ setInsert x l := by
  unfold setInsert
  by_cases hc : l.contains x = true
  · rw [if_pos hc]; exact h
  · rw [if_neg hc]
    exact List.mem_append.mpr (Or.inl h)

namespace PersistentRelay

/-- A Nostr event as the relay sees one after JSON parsing.  The fields
structValid and sigValid carry the outcomes of the nostr-tools calls
validateEvent and verifyEvent (structure check and cryptographic signature
check), which are opaque to this embedding. -/
structure Event where
  id : String
  pubkey : String
  kind : Nat
  tags : List (List String)
  content : String
  structValid : Bool
  sigValid : Bool
deriving DecidableEq, Repr

/-- The relay's in-memory store: the events Map (id to event) and the
deletions Set of tombstoned ids. -/
structure State where
  events : List (String × Event)
  deletions : List String
deriving DecidableEq, Repr

def emptyState : State := { events := [], deletions := [] }

/-- An outbound frame of the persistent relay: OK replies carry an optional
reason string (the kind-23 success reply has none). -/
inductive Frame where
  | ok (id : String) (accepted : Bool) (msg : Option String)
  | event (subId : String) (e : Event)
  | eose (subId : String)
deriving DecidableEq, Repr

/-- The validation filter of hasValidDeletionTag: a tag of the form
["e", target, ...] whose target is a non-empty string. -/
def isValidETag (tag : List String) : Bool :=
  decide (2 ≤ tag.length) && (tag.head? == some "e") && (tag.getD 1 "" != "")

/-- hasValidDeletionTag: the deletion event carries at least one well-formed
e tag.  (Its tags-is-an-array guard is vacuous here: the branch runs only
after validateEvent, so tags is always an array.) -/
def hasValidDeletionTag (e : Event) : Bool :=
  e.tags.any isValidETag

/-- The deletion loop's tag guard (tag.length >= 2 and tag[0] = "e"): note it
admits an empty target string, unlike isValidETag. -/
def isLoopETag (tag : List String) : Bool :=
  decide (2 ≤ tag.length) && (tag.head? == some "e")

/-- The target ids the deletion loop visits, in tag order. -/
def eTagTargets (e : Event) : List String :=
  (e.tags.filter isLoopETag).map (fun tag => tag.getD 1 "")

/-- Per-target outcome of a deletion attempt. -/
inductive DelKind where
  | deleted
  | alreadyDeleted
  | unauthorized
  | notFound
deriving DecidableEq, Repr, BEq

structure DelResult where
  kind : DelKind
  target : String
deriving DecidableEq, Repr

/-- The outcomes the deletion event counts as success. -/
def DelResult.isSuccess (r : DelResult) : Bool :=
  r.kind == DelKind.deleted || r.kind == DelKind.alreadyDeleted

/-- The per-target string pushed onto deletionResults. -/
def resultString (r : DelResult) : String :=
  match r.kind with
  | DelKind.deleted => "deleted: " ++ r.target
  | DelKind.alreadyDeleted => "already deleted: " ++ r.target
  | DelKind.unauthorized => "unauthorized: " ++ r.target
  | DelKind.notFound => "not found: " ++ r.target

/-- One iteration of the deletion loop: look the target up in the live map;
if present and owned by the requester, remove it and tombstone it; if
present under another pubkey, refuse with no mutation; if absent,
distinguish already-tombstoned from never-seen. -/
def tryDelete (requester target : String) (st : State) : DelResult × State :=
  match mapLookup target st.events with
  | some ev =>
      if requester = ev.pubkey then
        (⟨DelKind.deleted, target⟩,
          { events := mapErase target st.events,
            deletions := setInsert target st.deletions })
      else (⟨DelKind.unauthorized, target⟩, st)
  | none =>
      if st.deletions.contains target then (⟨DelKind.alreadyDeleted, target⟩, st)
      else (⟨DelKind.notFound, target⟩, st)

/-- The deletion loop over all e-tag targets: the collected deletionResults,
the running anySuccessful flag, and the final store state. -/
def runTargets (requester : String) (targets : List String) (st : State) :
    List DelResult × Bool × State :=
  match targets with
  | [] => ([], false, st)
  | t :: rest =>
      let r := tryDelete requester t st
      let rec' := runTargets requester rest r.2
      (r.1 :: rec'.1, r.1.isSuccess || rec'.2.1, rec'.2.2)

/-- The EVENT branch of the persistent relay's message handler, for a
well-formed event object: validation replies, the kind-23 store path with
its tombstone check, the kind-5 deletion path, and the unsupported-kind
rejection.  Returns the successor store state and the single OK reply. -/
def processEvent (e : Event) (st : State) : State × Frame :=
  if !e.structValid then
    (st, Frame.ok e.id false (some "invalid: event structure is invalid"))
  else if !e.sigValid then
    (st, Frame.ok e.id false (some "invalid: signature verification failed"))
  else if e.kind = 23 then
    if st.deletions.contains e.id then
      (st, Frame.ok e.id false (some "invalid: event was previously deleted"))
    else
      ({ st with events := mapInsert e.id e st.events }, Frame.ok e.id true none)
  else if e.kind = 5 then
    if !hasValidDeletionTag e then
      (st, Frame.ok e.id false (some "invalid: deletion event must have a valid e tag"))
    else
      let out := runTargets e.pubkey (eTagTargets e) st
      let joined := String.intercalate ", " (out.1.map resultString)
      if out.2.1 then
        (out.2.2, Frame.ok e.id true (some ("results: " ++ joined)))
      else
        (out.2.2, Frame.ok e.id false (some ("invalid: " ++ joined)))
  else
    (st, Frame.ok e.id false (some "invalid: only kind 23 and 5 events are accepted"))

/-- A REQ filter object; a missing key is none.  tagT is the "#t" key. -/
structure Filter where
  kinds : Option (List Nat)
  authors : Option (List String)
  ids : Option (List String)
  tagT : Option (List String)
deriving DecidableEq, Repr

def validKinds : List Nat := [23, 5]

/-- The REQ kind-gate: filter.kinds must exist and name at least one of the
relay's valid kinds, else the handler replies EOSE at once. -/
def reqGate (f : Filter) : Bool :=
  match f.kinds with
  | none => false
  | some ks => ks.any (fun k => validKinds.contains k)

/-- The per-event checks of the REQ scan: authors, ids and "#t", each only
when present and non-empty.  The scan never consults filter.kinds for the
individual event (only the gate above saw it). -/
def matchesReq (f : Filter) (e : Event) : Bool :=
  (match f.authors with
   | some as => if 0 < as.length then as.contains e.pubkey else true
   | none => true) &&
  (match f.ids with
   | some l => if 0 < l.length then l.contains e.id else true
   | none => true) &&
  (match f.tagT with
   | some ts =>
       if 0 < ts.length then
         let eventTags := (e.tags.filter (fun t => t.head? == some "t")).map
           (fun t => t.get? 1)
         ts.any (fun t => eventTags.contains (some t))
       else true
   | none => true)

/-- The REQ handler: gate on kinds, then scan the live map, skipping
tombstoned ids, keeping valid-kind events that pass the filter checks, and
close with one EOSE. -/
def handleReq (subId : String) (f : Filter) (st : State) : List Frame :=
  if !reqGate f then [Frame.eose subId]
  else
    ((st.events.map Prod.snd).filter (fun e =>
        !st.deletions.contains e.id && validKinds.contains e.kind && matchesReq f e)).map
      (fun e => Frame.event subId e) ++ [Frame.eose subId]

/-- A JS exception escaping the message handler. -/
inductive JsError where
  | typeError
deriving DecidableEq, Repr

/-- JS property access event.id where event may be undefined: a TypeError on
undefined. -/
def jsId (oe : Option Event) : Except JsError String :=
  match oe with
  | some e => Except.ok e.id
  | none => Except.error JsError.typeError

/-- The EVENT branch with its try/catch.  With a real event object nothing in
the body throws (the store operations and ws.send are total), so the body is
processEvent.  With event undefined, validateEvent returns false and building
the rejection reply evaluates event.id, which throws inside the try; the
catch block then evaluates event.id again and the TypeError escapes. -/
def processEventFrame (oe : Option Event) (st : State) :
    Except JsError (State × List Frame) :=
  let body : Except JsError (State × List Frame) :=
    match oe with
    | some e =>
        let r := processEvent e st
        Except.ok (r.1, [r.2])
    | none =>
        match jsId none with
        | Except.ok i =>
            Except.ok (st, [Frame.ok i false (some "invalid: event structure is invalid")])
        | Except.error err => Except.error err
  match body with
  | Except.ok r => Except.ok r
  | Except.error _ =>
      match jsId oe with
      | Except.ok i =>
          Except.ok (st, [Frame.ok i false (some "error: failed to process event")])
      | Except.error err => Except.error err

/-- An inbound frame after JSON.parse: a parse failure, an EVENT frame whose
payload may be missing (undefined), a REQ frame whose filter may be missing,
or an unknown type. -/
inductive Message where
  | malformed
  | eventMsg (oe : Option Event)
  | reqMsg (subId : String) (fo : Option Filter)
  | other
deriving DecidableEq, Repr

/-- One inbound frame of the persistent relay.  Malformed JSON logs and
returns.  A REQ with no filter object throws at filter.kinds inside its try,
is caught, and nothing is sent; the REQ path never mutates the store. -/
def processMessage (m : Message) (st : State) : Except JsError (State × List Frame) :=
  match m with
  | Message.malformed => Except.ok (st, [])
  | Message.eventMsg oe => processEventFrame oe st
  | Message.reqMsg subId fo =>
      match fo with
      | some f => Except.ok (st, handleReq subId f st)
      | none => Except.ok (st, [])
  | Message.other => Except.ok (st, [])

/-- The store state a message leaves behind (an escaping exception leaves the
store as it was: the EVENT path mutates nothing before its throw). -/
def stepMsg (st : State) (m : Message) : State :=
  match processMessage m st with
  | Except.ok r => r.1
  | Except.error _ => st

def runMsgs (ms : List Message) : State := ms.foldl stepMsg emptyState

end PersistentRelay

namespace PersistentRelay

/-- What loadPersistedData finds in events.json, after the branching the code
does on it: file absent, present but only whitespace, JSON that is not an
array, JSON that fails to parse, or an array of events. -/
inductive FileE where
  | absent
  | empty
  | notArray
  | corrupt
  | arr (data : List Event)
deriving Repr

/-- The same shapes for deletions.json, holding an array of ids. -/
inductive FileD where
  | absent
  | empty
  | notArray
  | corrupt
  | arr (ids : List String)
deriving Repr

/-- The events half of loadPersistedData.  The Bool records whether control
reaches the deletions half: the whitespace-only and not-an-array branches
return from the whole function early, while the absent and parse-failure
branches only rewrite the file and fall through.  Each loaded event is
skipped when its id is already in the (current) deletions set. -/
def loadEventsPhase (fe : FileE) (st : State) : State × Bool :=
  match fe with
  | FileE.absent => (st, true)
  | FileE.empty => (st, false)
  | FileE.notArray => (st, false)
  | FileE.corrupt => (st, true)
  | FileE.arr data =>
      ({ st with
          events := data.foldl (fun evs e =>
            if st.deletions.contains e.id then evs else mapInsert e.id e evs)
            st.events }, true)

/-- The deletions half of loadPersistedData: add every persisted id to the
deletions set, then sweep the events map removing every tombstoned id.  The
whitespace-only, not-an-array, absent and parse-failure branches leave both
sets untouched. -/
def loadDeletionsPhase (fd : FileD) (st : State) : State :=
  match fd with
  | FileD.absent => st
  | FileD.empty => st
  | FileD.notArray => st
  | FileD.corrupt => st
  | FileD.arr ids =>
      let ds := ids.foldl (fun d i => setInsert i d) st.deletions
      { events := ds.foldl (fun evs i => mapErase i evs) st.events,
        deletions := ds }

/-- loadPersistedData as the source orders it: the events half runs first and
the deletions half runs only when the events half did not return early. -/
def loadPersistedData (fe : FileE) (fd : FileD) (st : State) : State :=
  let r := loadEventsPhase fe st
  if r.2 then loadDeletionsPhase fd r.1 else r.1

/-- The startup order the specification describes, stated from its words for
comparison with loadPersistedData: load the tombstone set first, then load
events while skipping every event whose id is already tombstoned. -/
def loadSpecOrdered (fe : FileE) (fd : FileD) (st : State) : State :=
  let st1 :=
    match fd with
    | FileD.arr ids =>
        { st with deletions := ids.foldl (fun d i => setInsert i d) st.deletions }
    | _ => st
  match fe with
  | FileE.arr data =>
      { st1 with
          events := data.foldl (fun evs e =>
            if st1.deletions.contains e.id then evs else mapInsert e.id e evs)
            st1.events }
  | _ => st1

/-- A store operation: one inbound frame, or a run of the persistence loader. -/
inductive Op where
  | msg (m : Message)
  | load (fe : FileE) (fd : FileD)

def stepOp (st : State) (o : Op) : State :=
  match o with
  | Op.msg m => stepMsg st m
  | Op.load fe fd => loadPersistedData fe fd st

def runOps (ops : List Op) : State := ops.foldl stepOp emptyState

end PersistentRelay

namespace PersistentRelay

/-- The accepted flag of an OK reply, none for other frames. -/
def Frame.okAccepted : Frame → Option Bool
  | Frame.ok _ accepted _ => some accepted
  | _ => none

theorem tryDelete_target (r t : String) (st : State) :
    (tryDelete r t st).1.target = t := by
  unfold tryDelete
  cases mapLookup t st.events with
  | some ev =>
      by_cases hp : r = ev.pubkey
      · simp [hp]
      · simp [hp]
  | none =>
      by_cases hc : t ∈ st.deletions
      · simp [hc]
      · simp [hc]

theorem deletions_monotone_tryDelete (r t : String) (st : State) (i : String)
    (h : i ∈ st.deletions) : i ∈ ((tryDelete r t st).2).deletions := by
  unfold tryDelete
  cases mapLookup t st.events with
  | some ev =>
      by_cases hp : r = ev.pubkey
      · simpa [hp] using mem_setInsert_of_mem t i st.deletions h
      · simpa [hp] using h
  | none =>
      by_cases hc : t ∈ st.deletions
      · simpa [hc] using h
      · simpa [hc] using h

theorem deletions_monotone_runTargets (r : String) (ts : List String) (st : State)
    (i : String) (h : i ∈ st.deletions) :
    i ∈ ((runTargets r ts st).2.2).deletions := by
  induction ts generalizing st with
  | nil => simpa [runTargets] using h
  | cons t rest ih =>
      simp only [runTargets]
      exact ih (tryDelete r t st).2 (deletions_monotone_tryDelete r t st i h)

theorem deletions_monotone_processEvent (e : Event) (st : State) (i : String)
    (h : i ∈ st.deletions) : i ∈ ((processEvent e st).1).deletions := by
  unfold processEvent
  by_cases hs : e.structValid = true
  · by_cases hg : e.sigValid = true
    · by_cases hk : e.kind = 23
      · by_cases hd : e.id ∈ st.deletions
        · simpa [hs, hg, hk, hd] using h
        · simpa [hs, hg, hk, hd] using h
      · by_cases hk5 : e.kind = 5
        · by_cases hv : hasValidDeletionTag e = true
          · simp only [hs, hg, hk, hk5, hv, Bool.not_true, Bool.false_eq_true,
              if_false, if_true]
            by_cases hfl : (runTargets e.pubkey (eTagTargets e) st).2.1 = true
            · simpa [hfl] using deletions_monotone_runTargets e.pubkey (eTagTargets e) st i h
            · simp only [Bool.not_eq_true] at hfl
              simpa [hfl] using deletions_monotone_runTargets e.pubkey (eTagTargets e) st i h
          · have hv' : hasValidDeletionTag e = false := Bool.eq_false_iff.mpr hv
            simpa [hs, hg, hk, hk5, hv'] using h
        · simpa [hs, hg, hk, hk5] using h
    · have hg' : e.sigValid = false := Bool.eq_false_iff.mpr hg
      simpa [hs, hg'] using h
  · have hs' : e.structValid = false := Bool.eq_false_iff.mpr hs
    simpa [hs'] using h

/-- Any EVENT frame a REQ emits names a live, non-tombstoned, valid-kind
event that passes the filter checks, on the requested subscription id. -/
theorem handleReq_event_mem (subId : String) (f : Filter) (st : State)
    (sub : String) (ev : Event)
    (h : Frame.event sub ev ∈ handleReq subId f st) :
    ev ∈ st.events.map Prod.snd ∧ st.deletions.contains ev.id = false
      ∧ validKinds.contains ev.kind = true ∧ matchesReq f ev = true ∧ sub = subId := by
  unfold handleReq at h
  cases hgate : reqGate f with
  | false => simp [hgate] at h
  | true =>
      simp only [hgate, Bool.not_true, Bool.false_eq_true, if_false,
        List.mem_append, List.mem_map] at h
      rcases h with ⟨e', he', heq⟩ | h
      · obtain ⟨hmem, hcond⟩ := List.mem_filter.mp he'
        obtain ⟨hsub, hev⟩ : subId = sub ∧ e' = ev := by
          injection heq with h1 h2
          exact ⟨h1, h2⟩
        subst hsub
        subst hev
        simp only [Bool.and_eq_true, Bool.not_eq_true'] at hcond
        exact ⟨hmem, hcond.1.1, hcond.1.2, hcond.2, rfl⟩
      · simp at h

/-- C5: deletion is authorized only by the owner — a deletion request for a
stored event from a different pubkey yields the unauthorized outcome and
leaves the store unchanged: the event stays live and its id is not
tombstoned. -/
theorem tryDelete_unauthorized (a b target : String) (ev : Event) (st : State)
    (hev : mapLookup target st.events = some ev) (ha : ev.pubkey = a) (hb : b ≠ a) :
    (tryDelete b target st).1 = ⟨DelKind.unauthorized, target⟩
    ∧ (tryDelete b target st).2 = st
    ∧ mapLookup target (tryDelete b target st).2.events = some ev
    ∧ (tryDelete b target st).2.deletions = st.deletions := by
  have he : tryDelete b target st = (⟨DelKind.unauthorized, target⟩, st) := by
    have hbp : ¬b = ev.pubkey := fun hcontra => hb (hcontra.trans ha)
    unfold tryDelete
    rw [hev]
    simp [hbp]
  rw [he]
  exact ⟨rfl, rfl, hev, rfl⟩

def evC5 : Event :=
  { id := "a", pubkey := "alice", kind := 23, tags := [], content := "",
    structValid := true, sigValid := true }

def stC5 : State := { events := [("a", evC5)], deletions := [] }

theorem tryDelete_unauthorized_witness :
    (tryDelete "bob" "a" stC5).1 = ⟨DelKind.unauthorized, "a"⟩
    ∧ (tryDelete "bob" "a" stC5).2 = stC5
    ∧ mapLookup "a" (tryDelete "bob" "a" stC5).2.events = some evC5
    ∧ (tryDelete "bob" "a" stC5).2.deletions = stC5.deletions :=
  tryDelete_unauthorized "alice" "bob" "a" evC5 stC5 (by decide) rfl (by decide)

/-- C2 (code bug): the loader runs the events phase first and the deletions
phase second — when the events file is whitespace-only (and likewise when it
holds non-array JSON) the loader returns before the tombstone set is loaded,
so the in-memory tombstone set stays empty; the spec's order (tombstones
first) would have loaded it. -/
theorem loadPersistedData_order_bug :
    (loadPersistedData FileE.empty (FileD.arr ["a"]) emptyState).deletions = []
    ∧ (loadSpecOrdered FileE.empty (FileD.arr ["a"]) emptyState).deletions = ["a"]
    ∧ loadPersistedData FileE.empty (FileD.arr ["a"]) emptyState ≠
        loadSpecOrdered FileE.empty (FileD.arr ["a"]) emptyState :=
  ⟨rfl, rfl, by decide⟩

/-- C9 (code bug): an EVENT frame with no event payload is fatal — the
rejection reply inside the try evaluates event.id on undefined and throws,
and the catch block evaluates event.id again, so the TypeError escapes the
message handler.  Malformed JSON and well-formed event objects terminate
normally. -/
theorem event_frame_missing_payload_throws :
    processMessage (Message.eventMsg none) emptyState = Except.error JsError.typeError
    ∧ processMessage Message.malformed emptyState = Except.ok (emptyState, [])
    ∧ ∀ e : Event, ∀ st : State,
        processMessage (Message.eventMsg (some e)) st =
          Except.ok ((processEvent e st).1, [(processEvent e st).2]) :=
  ⟨rfl, rfl, fun _ _ => rfl⟩

end PersistentRelay

namespace PersistentRelay

/-- C1: tombstone permanence — once an id is in the deletions set, an EVENT
frame re-submitting a (valid, kind-23) event with that id is rejected with
the previously-deleted reason and the store is unchanged; no REQ replay ever
emits an event whose id is tombstoned; and no event processing ever removes
an id from the tombstone set. -/
theorem tombstone_permanence (e : Event) (st : State)
    (hs : e.structValid = true) (hg : e.sigValid = true)
    (hk : e.kind = 23) (hd : e.id ∈ st.deletions) :
    processEvent e st =
      (st, Frame.ok e.id false (some "invalid: event was previously deleted"))
    ∧ (∀ subId f sub ev, Frame.event sub ev ∈ handleReq subId f st →
        ev.id ∉ st.deletions)
    ∧ (∀ e2 : Event, ∀ i, i ∈ st.deletions → i ∈ ((processEvent e2 st).1).deletions) := by
  refine ⟨?_, ?_, ?_⟩
  · simp [processEvent, hs, hg, hk, hd]
  · intro subId f sub ev hmem
    have hc := (handleReq_event_mem subId f st sub ev hmem).2.1
    intro hcontra
    rw [(list_contains_iff st.deletions ev.id).mpr hcontra] at hc
    exact Bool.true_eq_false.mp hc
  · intro e2 i hi
    exact deletions_monotone_processEvent e2 st i hi

def eC1 : Event :=
  { id := "a", pubkey := "p", kind := 23, tags := [], content := "",
    structValid := true, sigValid := true }

def stC1 : State := { events := [], deletions := ["a"] }

theorem tombstone_permanence_witness :
    processEvent eC1 stC1 =
      (stC1, Frame.ok "a" false (some "invalid: event was previously deleted")) :=
  (tombstone_permanence eC1 stC1 rfl rfl rfl (by decide)).1

theorem runTargets_flag (r : String) (ts : List String) (st : State) :
    (runTargets r ts st).2.1 = (runTargets r ts st).1.any DelResult.isSuccess := by
  induction ts generalizing st with
  | nil => simp [runTargets]
  | cons t rest ih =>
      simp only [runTargets, List.any_cons]
      rw [ih]

theorem runTargets_targets (r : String) (ts : List String) (st : State) :
    (runTargets r ts st).1.map DelResult.target = ts := by
  induction ts generalizing st with
  | nil => simp [runTargets]
  | cons t rest ih =>
      simp only [runTargets, List.map_cons]
      rw [tryDelete_target, ih]

theorem isSuccess_iff (r : DelResult) :
    r.isSuccess = true ↔ r.kind = DelKind.deleted ∨ r.kind = DelKind.alreadyDeleted := by
  cases h : r.kind <;> simp [DelResult.isSuccess, h] <;> decide

/-- C4: a deletion event must carry at least one well-formed e tag (else the
validation reply), and otherwise the handler applies tryDelete for every
e-tag target under the deleting event's own pubkey, collects one outcome per
target, and replies OK with accepted = anySuccessful, where anySuccessful
holds exactly when at least one outcome is deleted or already-deleted. -/
theorem deletion_event_processing (e : Event) (st : State)
    (hs : e.structValid = true) (hg : e.sigValid = true) (hk : e.kind = 5) :
    (hasValidDeletionTag e = false →
        processEvent e st =
          (st, Frame.ok e.id false (some "invalid: deletion event must have a valid e tag")))
    ∧ (hasValidDeletionTag e = true →
        (runTargets e.pubkey (eTagTargets e) st).1.map DelResult.target = eTagTargets e
        ∧ (processEvent e st).1 = (runTargets e.pubkey (eTagTargets e) st).2.2
        ∧ (processEvent e st).2.okAccepted =
            some (runTargets e.pubkey (eTagTargets e) st).2.1
        ∧ ((runTargets e.pubkey (eTagTargets e) st).2.1 = true ↔
            ∃ r ∈ (runTargets e.pubkey (eTagTargets e) st).1,
              r.kind = DelKind.deleted ∨ r.kind = DelKind.alreadyDeleted)) := by
  have hk23 : ¬e.kind = 23 := by rw [hk]; decide
  constructor
  · intro hv
    simp [processEvent, hs, hg, hk, hk23, hv]
  · intro hv
    have hiff : (runTargets e.pubkey (eTagTargets e) st).2.1 = true ↔
        ∃ r ∈ (runTargets e.pubkey (eTagTargets e) st).1,
          r.kind = DelKind.deleted ∨ r.kind = DelKind.alreadyDeleted := by
      rw [runTargets_flag]
      rw [List.any_eq_true]
      constructor
      · rintro ⟨r, hr, hsucc⟩
        exact ⟨r, hr, (isSuccess_iff r).mp hsucc⟩
      · rintro ⟨r, hr, hsucc⟩
        exact ⟨r, hr, (isSuccess_iff r).mpr hsucc⟩
    refine ⟨runTargets_targets e.pubkey (eTagTargets e) st, ?_, ?_, hiff⟩
    · by_cases hfl : (runTargets e.pubkey (eTagTargets e) st).2.1 = true
      · simp [processEvent, hs, hg, hk, hk23, hv, hfl]
      · have hfl' := Bool.eq_false_iff.mpr hfl
        simp [processEvent, hs, hg, hk, hk23, hv, hfl']
    · by_cases hfl : (runTargets e.pubkey (eTagTargets e) st).2.1 = true
      · simp [processEvent, hs, hg, hk, hk23, hv, hfl, Frame.okAccepted]
      · have hfl' := Bool.eq_false_iff.mpr hfl
        simp [processEvent, hs, hg, hk, hk23, hv, hfl', Frame.okAccepted]

def eC4 : Event :=
  { id := "d", pubkey := "p", kind := 5, tags := [["e", "a"]], content := "",
    structValid := true, sigValid := true }

def stC4 : State :=
  { events := [("a",
      { id := "a", pubkey := "p", kind := 23, tags := [], content := "",
        structValid := true, sigValid := true })],
    deletions := [] }

theorem deletion_event_processing_witness :
    (runTargets eC4.pubkey (eTagTargets eC4) stC4).1.map DelResult.target = eTagTargets eC4
    ∧ (processEvent eC4 stC4).1 = (runTargets eC4.pubkey (eTagTargets eC4) stC4).2.2
    ∧ (processEvent eC4 stC4).2.okAccepted =
        some (runTargets eC4.pubkey (eTagTargets eC4) stC4).2.1
    ∧ ((runTargets eC4.pubkey (eTagTargets eC4) stC4).2.1 = true ↔
        ∃ r ∈ (runTargets eC4.pubkey (eTagTargets eC4) stC4).1,
          r.kind = DelKind.deleted ∨ r.kind = DelKind.alreadyDeleted) :=
  (deletion_event_processing eC4 stC4 rfl rfl rfl).2 rfl

end PersistentRelay

namespace PersistentRelay

/-- The disjointness invariant of the store: a tombstoned id is never live. -/
def StoreDisjoint (st : State) : Prop :=
  ∀ i, i ∈ (st.deletions : List String) → mapLookup i st.events = none

theorem contains_false_of_disjoint_aux (st : State) (i : String)
    (h : StoreDisjoint st) (hi : i ∈ st.deletions) : mapLookup i st.events = none :=
  h i hi

theorem disjoint_tryDelete (r t : String) (st : State) (h : StoreDisjoint st) :
    StoreDisjoint (tryDelete r t st).2 := by
  unfold tryDelete
  cases hl : mapLookup t st.events with
  | some ev =>
      by_cases hp : r = ev.pubkey
      · simp only [hp, if_true]
        intro i hi
        by_cases hit : i = t
        · subst hit
          exact mapLookup_erase_self i st.events
        · rcases mem_setInsert_elim t i st.deletions hi with hit2 | hmem
          · exact absurd hit2 hit
          · exact mapLookup_erase_of_none i t st.events (h i hmem)
      · simp only [hp, if_false]
        exact h
  | none =>
      by_cases hc : t ∈ st.deletions
      · simpa [hc] using h
      · simpa [hc] using h

theorem disjoint_runTargets (r : String) (ts : List String) (st : State)
    (h : StoreDisjoint st) : StoreDisjoint (runTargets r ts st).2.2 := by
  induction ts generalizing st with
  | nil => simpa [runTargets] using h
  | cons t rest ih =>
      simp only [runTargets]
      exact ih (tryDelete r t st).2 (disjoint_tryDelete r t st h)

theorem disjoint_processEvent (e : Event) (st : State) (h : StoreDisjoint st) :
    StoreDisjoint (processEvent e st).1 := by
  unfold processEvent
  by_cases hs : e.structValid = true
  · by_cases hg : e.sigValid = true
    · by_cases hk : e.kind = 23
      · by_cases hd : e.id ∈ st.deletions
        · simpa [hs, hg, hk, hd] using h
        · have hcond : ¬(st.deletions.contains e.id = true) :=
            fun hc => hd ((list_contains_iff _ _).mp hc)
          simp only [hs, hg, hk, Bool.not_true, Bool.false_eq_true, if_false,
            if_true, if_neg hcond]
          intro i hi
          have hne : i ≠ e.id := fun hcontra => hd (hcontra ▸ hi)
          rw [mapLookup_insert_ne i e.id e st.events hne]
          exact h i hi
      · by_cases hk5 : e.kind = 5
        · by_cases hv : hasValidDeletionTag e = true
          · simp only [hs, hg, hk, hk5, hv, Bool.not_true, Bool.false_eq_true,
              if_false, if_true]
            by_cases hfl : (runTargets e.pubkey (eTagTargets e) st).2.1 = true
            · simpa [hfl] using disjoint_runTargets e.pubkey (eTagTargets e) st h
            · have hfl' := Bool.eq_false_iff.mpr hfl
              simpa [hfl'] using disjoint_runTargets e.pubkey (eTagTargets e) st h
          · have hv' := Bool.eq_false_iff.mpr hv
            simpa [hs, hg, hk, hk5, hv'] using h
        · simpa [hs, hg, hk, hk5] using h
    · have hg' := Bool.eq_false_iff.mpr hg
      simpa [hs, hg'] using h
  · have hs' := Bool.eq_false_iff.mpr hs
    simpa [hs'] using h

theorem disjoint_stepMsg (st : State) (m : Message) (h : StoreDisjoint st) :
    StoreDisjoint (stepMsg st m) := by
  cases m with
  | malformed => exact h
  | eventMsg oe =>
      cases oe with
      | some e => exact disjoint_processEvent e st h
      | none => exact h
  | reqMsg subId fo =>
      cases fo with
      | some f => exact h
      | none => exact h
  | other => exact h

theorem lookup_foldl_skipInsert (dels : List String) (data : List Event)
    (evs : List (String × Event)) (i : String) (hi : i ∈ dels)
    (h0 : mapLookup i evs = none) :
    mapLookup i (data.foldl (fun acc e =>
      if dels.contains e.id then acc else mapInsert e.id e acc) evs) = none := by
  induction data generalizing evs with
  | nil => simpa using h0
  | cons e rest ih =>
      simp only [List.foldl_cons]
      by_cases hc : e.id ∈ dels
      · simpa [hc] using ih evs h0
      · have hne : i ≠ e.id := fun hcontra => hc (hcontra ▸ hi)
        have : mapLookup i (mapInsert e.id e evs) = none := by
          rw [mapLookup_insert_ne i e.id e evs hne]
          exact h0
        simpa [hc] using ih (mapInsert e.id e evs) this

theorem lookup_foldl_erase_of_none (ds : List String) (evs : List (String × Event))
    (i : String) (h : mapLookup i evs = none) :
    mapLookup i (ds.foldl (fun acc j => mapErase j acc) evs) = none := by
  induction ds generalizing evs with
  | nil => simpa using h
  | cons j rest ih =>
      simp only [List.foldl_cons]
      exact ih (mapErase j evs) (mapLookup_erase_of_none i j evs h)

theorem lookup_foldl_erase_of_mem (ds : List String) (evs : List (String × Event))
    (i : String) (hi : i ∈ ds) :
    mapLookup i (ds.foldl (fun acc j => mapErase j acc) evs) = none := by
  induction ds generalizing evs with
  | nil => simp at hi
  | cons j rest ih =>
      simp only [List.foldl_cons]
      rcases List.mem_cons.mp hi with hij | hrest
      · subst hij
        exact lookup_foldl_erase_of_none rest (mapErase i evs) i
          (mapLookup_erase_self i evs)
      · exact ih (mapErase j evs) hrest

theorem disjoint_loadDeletionsPhase (fd : FileD) (st : State) (h : StoreDisjoint st) :
    StoreDisjoint (loadDeletionsPhase fd st) := by
  cases fd with
  | absent => exact h
  | empty => exact h
  | notArray => exact h
  | corrupt => exact h
  | arr ids =>
      intro i hi
      simp only [loadDeletionsPhase] at hi ⊢
      exact lookup_foldl_erase_of_mem _ st.events i hi

theorem disjoint_loadEventsPhase (fe : FileE) (st : State) (h : StoreDisjoint st) :
    StoreDisjoint (loadEventsPhase fe st).1 := by
  cases fe with
  | absent => exact h
  | empty => exact h
  | notArray => exact h
  | corrupt => exact h
  | arr data =>
      intro i hi
      simp only [loadEventsPhase] at hi ⊢
      exact lookup_foldl_skipInsert st.deletions data st.events i hi (h i hi)

theorem disjoint_load (fe : FileE) (fd : FileD) (st : State) (h : StoreDisjoint st) :
    StoreDisjoint (loadPersistedData fe fd st) := by
  unfold loadPersistedData
  cases fe with
  | absent => exact disjoint_loadDeletionsPhase fd st h
  | empty => exact h
  | notArray => exact h
  | corrupt => exact disjoint_loadDeletionsPhase fd st h
  | arr data =>
      exact disjoint_loadDeletionsPhase fd _
        (disjoint_loadEventsPhase (FileE.arr data) st h)

theorem disjoint_stepOp (st : State) (o : Op) (h : StoreDisjoint st) :
    StoreDisjoint (stepOp st o) := by
  cases o with
  | msg m => exact disjoint_stepMsg st m h
  | load fe fd => exact disjoint_load fe fd st h

theorem disjoint_foldl (ops : List Op) (st : State) (h : StoreDisjoint st) :
    StoreDisjoint (ops.foldl stepOp st) := by
  induction ops generalizing st with
  | nil => simpa using h
  | cons o rest ih =>
      simp only [List.foldl_cons]
      exact ih (stepOp st o) (disjoint_stepOp st o h)

/-- C3: in every store state reachable from the empty store by any sequence
of inbound frames and persistence-loader runs, the live event map and the
tombstone set are disjoint: a tombstoned id is never a key of the events
map. -/
theorem store_disjointness (ops : List Op) :
    ∀ i, i ∈ (runOps ops).deletions → mapLookup i (runOps ops).events = none := by
  have hempty : StoreDisjoint emptyState := by
    intro i hi
    simp [emptyState] at hi
  exact disjoint_foldl ops emptyState hempty

def opsC3 : List Op :=
  [Op.msg (Message.eventMsg (some
      { id := "a", pubkey := "p", kind := 23, tags := [], content := "",
        structValid := true, sigValid := true })),
   Op.msg (Message.eventMsg (some
      { id := "d", pubkey := "p", kind := 5, tags := [["e", "a"]], content := "",
        structValid := true, sigValid := true }))]

theorem store_disjointness_witness :
    mapLookup "a" (runOps opsC3).events = none :=
  store_disjointness opsC3 "a" (by decide)

end PersistentRelay

namespace PersistentRelay

/-- Every live value of the store has the music kind 23. -/
def StoredKind23 (st : State) : Prop :=
  ∀ ev ∈ st.events.map Prod.snd, ev.kind = 23

theorem values_tryDelete_subset (r t : String) (st : State) (ev : Event)
    (h : ev ∈ ((tryDelete r t st).2).events.map Prod.snd) :
    ev ∈ st.events.map Prod.snd := by
  unfold tryDelete at h
  split at h
  · split at h
    · exact mem_values_erase t ev st.events h
    · exact h
  · split at h
    · exact h
    · exact h

theorem values_runTargets_subset (r : String) (ts : List String) (st : State)
    (ev : Event) (h : ev ∈ ((runTargets r ts st).2.2).events.map Prod.snd) :
    ev ∈ st.events.map Prod.snd := by
  induction ts generalizing st with
  | nil => simpa [runTargets] using h
  | cons t rest ih =>
      simp only [runTargets] at h
      exact values_tryDelete_subset r t st ev (ih (tryDelete r t st).2 h)

theorem kind23_processEvent (e : Event) (st : State) (h : StoredKind23 st) :
    StoredKind23 (processEvent e st).1 := by
  unfold processEvent
  by_cases hs : e.structValid = true
  · by_cases hg : e.sigValid = true
    · by_cases hk : e.kind = 23
      · by_cases hd : e.id ∈ st.deletions
        · simpa [hs, hg, hk, hd] using h
        · have hcond : ¬(st.deletions.contains e.id = true) :=
            fun hc => hd ((list_contains_iff _ _).mp hc)
          simp only [hs, hg, hk, Bool.not_true, Bool.false_eq_true, if_false,
            if_true, if_neg hcond]
          intro ev hev
          rcases mem_values_insert e.id e ev st.events hev with hveq | hvmem
          · rw [hveq]
            exact hk
          · exact h ev hvmem
      · by_cases hk5 : e.kind = 5
        · by_cases hv : hasValidDeletionTag e = true
          · simp only [hs, hg, hk, hk5, hv, Bool.not_true, Bool.false_eq_true,
              if_false, if_true]
            by_cases hfl : (runTargets e.pubkey (eTagTargets e) st).2.1 = true
            · simp only [hfl, if_true]
              intro ev hev
              exact h ev (values_runTargets_subset e.pubkey (eTagTargets e) st ev hev)
            · have hfl' := Bool.eq_false_iff.mpr hfl
              simp only [hfl', Bool.false_eq_true, if_false]
              intro ev hev
              exact h ev (values_runTargets_subset e.pubkey (eTagTargets e) st ev hev)
          · have hv' := Bool.eq_false_iff.mpr hv
            simpa [hs, hg, hk, hk5, hv'] using h
        · simpa [hs, hg, hk, hk5] using h
    · have hg' := Bool.eq_false_iff.mpr hg
      simpa [hs, hg'] using h
  · have hs' := Bool.eq_false_iff.mpr hs
    simpa [hs'] using h

theorem kind23_stepMsg (st : State) (m : Message) (h : StoredKind23 st) :
    StoredKind23 (stepMsg st m) := by
  cases m with
  | malformed => exact h
  | eventMsg oe =>
      cases oe with
      | some e => exact kind23_processEvent e st h
      | none => exact h
  | reqMsg subId fo =>
      cases fo with
      | some f => exact h
      | none => exact h
  | other => exact h

theorem kind23_foldl (ms : List Message) (st : State) (h : StoredKind23 st) :
    StoredKind23 (ms.foldl stepMsg st) := by
  induction ms generalizing st with
  | nil => simpa using h
  | cons m rest ih =>
      simp only [List.foldl_cons]
      exact ih (stepMsg st m) (kind23_stepMsg st m h)

/-- C10: deletion-kind events are never stored — in every state reachable by
message processing from the empty store, every live event has kind 23, so a
REQ replay never emits a stored kind-5 event, even though the REQ kind-gate
accepts a filter constraining kinds to 5. -/
theorem no_kind5_stored (ms : List Message) :
    (∀ ev ∈ (runMsgs ms).events.map Prod.snd, ev.kind = 23)
    ∧ (∀ subId f sub ev, Frame.event sub ev ∈ handleReq subId f (runMsgs ms) →
        ev.kind ≠ 5)
    ∧ reqGate { kinds := some [5], authors := none, ids := none, tagT := none } = true := by
  have hempty : StoredKind23 emptyState := by
    intro ev hev
    simp [emptyState] at hev
  have h23 : StoredKind23 (runMsgs ms) := kind23_foldl ms emptyState hempty
  refine ⟨h23, ?_, by decide⟩
  intro subId f sub ev hmem
  have hv := (handleReq_event_mem subId f (runMsgs ms) sub ev hmem).1
  rw [h23 ev hv]
  decide

end PersistentRelay

namespace BroadcastRelay

/-- An event at the broadcast relay (same wire shape; structValid and
sigValid carry the nostr-tools validateEvent / verifySignature outcomes). -/
structure Event where
  id : String
  pubkey : String
  kind : Nat
  tags : List (List String)
  content : String
  structValid : Bool
  sigValid : Bool
deriving DecidableEq, Repr

/-- A REQ filter object; a missing key is none.  tagT is the "#t" key. -/
structure Filter where
  kinds : Option (List Nat)
  authors : Option (List String)
  ids : Option (List String)
  tagT : Option (List String)
deriving DecidableEq, Repr

/-- One filter of matchFilters: each present constraint must pass — kinds
membership, authors membership, and for "#t" at least one t-tag whose value
is in the set.  An ids constraint is never consulted by this function. -/
def matchFilter (event : Event) (filter : Filter) : Bool :=
  filter.kinds.elim true (fun ks => ks.contains event.kind) &&
  filter.authors.elim true (fun l => l.contains event.pubkey) &&
  filter.tagT.elim true (fun ts =>
    event.tags.any (fun tag =>
      (tag.head? == some "t") && (tag.get? 1).elim false (fun v => ts.contains v)))

/-- matchFilters: true when some filter of the set matches the event. -/
def matchFilters (event : Event) (filters : List Filter) : Bool :=
  filters.any (fun filter => matchFilter event filter)

/-- The matcher as the specification words it: the conjunction also includes
id membership.  Stated from the spec for comparison with matchFilter. -/
def matchesSpec (event : Event) (filter : Filter) : Bool :=
  filter.kinds.elim true (fun ks => ks.contains event.kind) &&
  filter.ids.elim true (fun l => l.contains event.id) &&
  filter.authors.elim true (fun l => l.contains event.pubkey) &&
  filter.tagT.elim true (fun ts =>
    event.tags.any (fun tag =>
      (tag.head? == some "t") && (tag.get? 1).elim false (fun v => ts.contains v)))

abbrev Conn := Nat

/-- The broadcast relay's shared state: the events Map and the subscriptions
Map from subscription id to the Set of interested connections (the filters a
REQ carried are not retained). -/
structure ServerState where
  events : List (String × Event)
  subscriptions : List (String × List Conn)
deriving DecidableEq, Repr

inductive Frame where
  | ok (id : String) (accepted : Bool) (msg : String)
  | event (subId : String) (e : Event)
  | eose (subId : String)
deriving DecidableEq, Repr

/-- handleEvent: validate, store, reply OK to the sender, then send an EVENT
frame to every client of every registered subscription on that subscription's
id — no filter is consulted. -/
def handleEvent (ws : Conn) (event : Event) (st : ServerState) :
    ServerState × List (Conn × Frame) :=
  if !(event.structValid && event.sigValid) then
    (st, [(ws, Frame.ok event.id false "invalid: invalid signature")])
  else
    ({ st with events := mapInsert event.id event st.events },
      (ws, Frame.ok event.id true "") ::
        st.subscriptions.flatMap (fun s => s.2.map (fun c => (c, Frame.event s.1 event))))

/-- handleSubscription: add the connection to the subscription's set (created
when absent; the filters are dropped), replay every stored event matching the
filters to the requester, then send EOSE. -/
def handleSubscription (ws : Conn) (subId : String) (filters : List Filter)
    (st : ServerState) : ServerState × List (Conn × Frame) :=
  let conns :=
    match mapLookup subId st.subscriptions with
    | some cs => cs
    | none => []
  ({ st with subscriptions := mapInsert subId (setInsert ws conns) st.subscriptions },
    ((st.events.map Prod.snd).filter (fun e => matchFilters e filters)).map
        (fun e => (ws, Frame.event subId e))
      ++ [(ws, Frame.eose subId)])

/-- The frames of an output batch addressed to one connection, in order. -/
def framesTo (c : Conn) (out : List (Conn × Frame)) : List Frame :=
  (out.filter (fun p => decide (p.1 = c))).map Prod.snd

end BroadcastRelay

namespace BroadcastRelay

theorem optValue_exists_iff (o : Option String) (ts : List String) :
    (o.elim false (fun v => decide (v ∈ ts))) = true ↔ ∃ v, o = some v ∧ v ∈ ts := by
  cases o with
  | none => simp
  | some v => simp

theorem matchFilter_iff (e : Event) (f : Filter) :
    matchFilter e f = true ↔
      (∀ ks, f.kinds = some ks → e.kind ∈ ks)
      ∧ (∀ l, f.authors = some l → e.pubkey ∈ l)
      ∧ (∀ ts, f.tagT = some ts →
          ∃ tag ∈ e.tags, tag.head? = some "t" ∧ ∃ v, tag.get? 1 = some v ∧ v ∈ ts) := by
  obtain ⟨ks, au, ids, ts⟩ := f
  cases ks <;> cases au <;> cases ts <;>
    simp [matchFilter, List.any_eq_true, Bool.and_eq_true, beq_iff_eq,
      optValue_exists_iff, list_contains_iff, and_assoc]

/-- C6 (amended): matchFilters is a disjunction over the filter set, and an
event matches one filter exactly when it satisfies every constraint the
function consults — kind membership, author membership and the "#t" tag
constraint; a present ids constraint is not consulted; the empty filter
matches every event. -/
theorem match_conjunction_disjunction :
    (∀ e fs, matchFilters e fs = true ↔ ∃ f ∈ fs,
        (∀ ks, f.kinds = some ks → e.kind ∈ ks)
        ∧ (∀ l, f.authors = some l → e.pubkey ∈ l)
        ∧ (∀ ts, f.tagT = some ts →
            ∃ tag ∈ e.tags, tag.head? = some "t" ∧ ∃ v, tag.get? 1 = some v ∧ v ∈ ts))
    ∧ (∀ e, matchFilter e
        { kinds := none, authors := none, ids := none, tagT := none } = true) := by
  constructor
  · intro e fs
    unfold matchFilters
    rw [List.any_eq_true]
    constructor
    · rintro ⟨f, hf, hm⟩
      exact ⟨f, hf, (matchFilter_iff e f).mp hm⟩
    · rintro ⟨f, hf, hm⟩
      exact ⟨f, hf, (matchFilter_iff e f).mpr hm⟩
  · intro e
    rfl

def eC6 : Event :=
  { id := "a", pubkey := "p", kind := 23, tags := [], content := "",
    structValid := true, sigValid := true }

def fC6 : Filter := { kinds := none, authors := none, ids := some ["b"], tagT := none }

/-- C6 counterexample: the claim's conjunction includes id membership, but
matchFilters accepts an event violating a present ids constraint — the
spec-worded matcher refuses it. -/
theorem match_ignores_ids_cex :
    fC6.ids = some ["b"] ∧ eC6.id ∉ (["b"] : List String)
    ∧ matchFilters eC6 [fC6] = true ∧ matchesSpec eC6 fC6 = false := by
  refine ⟨rfl, by decide, rfl, rfl⟩

end BroadcastRelay

namespace BroadcastRelay

def fC7 : Filter := { kinds := some [99], authors := none, ids := none, tagT := none }

def eC7 : Event :=
  { id := "e1", pubkey := "p", kind := 1, tags := [], content := "",
    structValid := true, sigValid := true }

def stC7 : ServerState :=
  (handleSubscription 0 "s" [fC7] { events := [], subscriptions := [] }).1

/-- C7 counterexample: a subscription registered with a filter set that does
not match the event still receives the EVENT frame on broadcast — the notify
loop consults no filters. -/
theorem broadcast_filters_cex :
    matchFilters eC7 [fC7] = false
    ∧ (0, Frame.event "s" eC7) ∈ (handleEvent 1 eC7 stC7).2 := by
  refine ⟨rfl, by decide⟩

/-- C7 (amended): broadcasting a newly accepted (valid) event sends an EVENT
frame on subscription id s to connection c exactly when c is registered under
s — the registry retains no filters, so delivery does not depend on them. -/
theorem broadcast_all_registered (ws : Conn) (ev : Event) (st : ServerState)
    (hs : ev.structValid = true) (hg : ev.sigValid = true) :
    ∀ c subId, ((c, Frame.event subId ev) ∈ (handleEvent ws ev st).2 ↔
      ∃ cs, (subId, cs) ∈ st.subscriptions ∧ c ∈ cs) := by
  intro c subId
  unfold handleEvent
  simp only [hs, hg, Bool.and_self, Bool.not_true, Bool.false_eq_true, if_false]
  constructor
  · intro hmem
    rcases List.mem_cons.mp hmem with hhead | htail
    · exact absurd hhead (by simp)
    · obtain ⟨s, hsmem, hmem2⟩ := List.mem_flatMap.mp htail
      obtain ⟨c2, hc2, heq⟩ := List.mem_map.mp hmem2
      have hc2c : c2 = c := congrArg Prod.fst heq
      have hfr : Frame.event s.1 ev = Frame.event subId ev := congrArg Prod.snd heq
      have hs1 : s.1 = subId := by injection hfr
      refine ⟨s.2, ?_, hc2c ▸ hc2⟩
      have : s = (subId, s.2) := by
        rw [← hs1]
      rw [← this]
      exact hsmem
  · rintro ⟨cs, hcs, hc⟩
    apply List.mem_cons_of_mem
    exact List.mem_flatMap.mpr ⟨(subId, cs), hcs, List.mem_map.mpr ⟨c, hc, rfl⟩⟩

theorem broadcast_all_registered_witness :
    ((0, Frame.event "s" eC7) ∈ (handleEvent 1 eC7 stC7).2 ↔
      ∃ cs, ("s", cs) ∈ stC7.subscriptions ∧ 0 ∈ cs) :=
  broadcast_all_registered 1 eC7 stC7 rfl rfl 0 "s"

theorem framesTo_append (c : Conn) (a b : List (Conn × Frame)) :
    framesTo c (a ++ b) = framesTo c a ++ framesTo c b := by
  simp [framesTo, List.filter_append]

theorem framesTo_self_map (c : Conn) (l : List Event) (g : Event → Frame) :
    framesTo c (l.map (fun e => (c, g e))) = l.map g := by
  induction l with
  | nil => rfl
  | cons e rest ih =>
      simp only [List.map_cons, framesTo, List.filter_cons] at ih ⊢
      simpa using ih

theorem mem_framesTo_of_mem (c : Conn) (fr : Frame) (out : List (Conn × Frame))
    (h : (c, fr) ∈ out) : fr ∈ framesTo c out := by
  simp only [framesTo, List.mem_map]
  exact ⟨(c, fr), List.mem_filter.mpr ⟨h, by simp⟩, rfl⟩

/-- C8: replay-then-live ordering — a REQ delivers to the requesting
connection exactly the stored events matching its filter set, as EVENT
frames in store order, followed by one EOSE and nothing after it; a matching
valid event published afterwards is delivered to that connection as a
further EVENT frame on the same subscription id. -/
theorem replay_then_live (c : Conn) (subId : String) (fs : List Filter)
    (st : ServerState) (c2 : Conn) (e2 : Event)
    (hs : e2.structValid = true) (hg : e2.sigValid = true)
    (_hm : matchFilters e2 fs = true) :
    framesTo c (handleSubscription c subId fs st).2
      = ((st.events.map Prod.snd).filter (fun e => matchFilters e fs)).map
          (fun e => Frame.event subId e) ++ [Frame.eose subId]
    ∧ Frame.event subId e2 ∈
        framesTo c (handleEvent c2 e2 (handleSubscription c subId fs st).1).2 := by
  constructor
  · show framesTo c
        (((st.events.map Prod.snd).filter (fun e => matchFilters e fs)).map
            (fun e => (c, Frame.event subId e))
          ++ [(c, Frame.eose subId)]) = _
    rw [framesTo_append, framesTo_self_map]
    simp [framesTo]
  · have hsub : (handleSubscription c subId fs st).1.subscriptions
      = mapInsert subId
          (setInsert c
            (match mapLookup subId st.subscriptions with
             | some cs => cs
             | none => []))
          st.subscriptions := rfl
    apply mem_framesTo_of_mem
    unfold handleEvent
    simp only [hs, hg, Bool.and_self, Bool.not_true, Bool.false_eq_true, if_false]
    apply List.mem_cons_of_mem
    apply List.mem_flatMap.mpr
    refine ⟨(subId,
      setInsert c
        (match mapLookup subId st.subscriptions with
         | some cs => cs
         | none => [])), ?_, ?_⟩
    · rw [hsub]
      exact mem_mapInsert_self subId _ st.subscriptions
    · exact List.mem_map.mpr ⟨c, mem_setInsert_self c _, rfl⟩

def fsC8 : List Filter :=
  [{ kinds := none, authors := none, ids := none, tagT := some ["music"] }]

def evC8a : Event :=
  { id := "e1", pubkey := "p", kind := 1, tags := [["t", "music"]], content := "",
    structValid := true, sigValid := true }

def evC8b : Event :=
  { id := "e2", pubkey := "q", kind := 1, tags := [["t", "music"]], content := "",
    structValid := true, sigValid := true }

def stC8 : ServerState := { events := [("e1", evC8a)], subscriptions := [] }

theorem replay_then_live_witness :
    framesTo 0 (handleSubscription 0 "s" fsC8 stC8).2
      = ((stC8.events.map Prod.snd).filter (fun e => matchFilters e fsC8)).map
          (fun e => Frame.event "s" e) ++ [Frame.eose "s"]
    ∧ Frame.event "s" evC8b ∈
        framesTo 0 (handleEvent 1 evC8b (handleSubscription 0 "s" fsC8 stC8).1).2 :=
  replay_then_live 0 "s" fsC8 stC8 1 evC8b rfl rfl (by decide)

end BroadcastRelay
